import Mathlib

/-!
Shallow embedding of the tofutf agent/job orchestration service
(`internal/agent/service.go`) and the log-chunk caching proxy
(`internal/logs/proxy.go`), with theorems settling the spec's claims.

Conventions:
- Go errors become the inductive `Err`; fallible Go functions return `Except Err _`.
- Byte slices (`[]byte`) become `List Nat`.
- The database job table becomes a function `JobSpec → Except Err Job`:
  a lookup yields the row or fails (`resourceNotFound` for a missing row,
  other constructors for transient store failures).
- External collaborators (run-service phases, token factory, cache `Set`,
  db writes) are passed in as explicit outcome parameters, and each service
  function's result records how often each collaborator was invoked.
-/

namespace Tofutf

/-- Error kinds of the orchestrator (internal.Err* sentinel errors in Go). -/
inductive Err where
  | accessNotPermitted
  | resourceNotFound
  | invalidStateTransition
  | workspaceNotAllowedToUsePool
  | cannotDeletePoolReferencedByWorkspaces
  | unauthorizedAgentRegistration
  | other (msg : String)
deriving DecidableEq, Repr

/-- A run phase (`internal.PhaseType`), restricted to the two job phases. -/
inductive Phase where
  | plan
  | apply
deriving DecidableEq, Repr

/-- The `String()` form of a phase. -/
def Phase.toStr : Phase → String
  | .plan => "plan"
  | .apply => "apply"

/-- Job status (`JobStatus` constants in Go). -/
inductive JobStatus where
  | unallocated
  | allocated
  | running
  | finished
  | canceled
  | errored
deriving DecidableEq, Repr

/-- A `JobSpec = (RunID, Phase)`, the identity of a job. -/
structure JobSpec where
  runID : String
  phase : Phase
deriving DecidableEq, Repr

/-- A job row: status, optional assigned agent, optional cancellation signal. -/
structure Job where
  spec : JobSpec
  status : JobStatus
  agentID : Option String
  signaled : Option Bool
deriving DecidableEq, Repr

/-- An agent pool row (`Pool` in Go). -/
structure Pool where
  id : String
  organization : String
  organizationScoped : Bool
  allowedWorkspaces : List String
  assignedWorkspaces : List String
deriving DecidableEq, Repr

/-- The fields of `workspace.Workspace` used by pool-access checking. -/
structure Workspace where
  id : String
  agentPoolID : Option String
deriving DecidableEq, Repr

/-- The caller identities (`internal.Subject` implementations) that the
agent service dispatches on. -/
inductive Subject where
  | manager
  | serverAgent (id : String)
  | poolAgent (id : String)
  | unregisteredServerAgent
  | unregisteredPoolAgent (poolID : String)
  | jobSubject (spec : JobSpec)
  | user (name : String)
deriving DecidableEq, Repr

/-- Modelled from the spec: `registeredAgentFromContext` succeeds exactly when
the caller is a registered server or pool agent (spec §9 "Polymorphic
subjects"; the helper itself is not under src/). Returns the agent's ID
(`subject.String()` in Go). -/
def registeredAgentID : Subject → Option String
  | .serverAgent id => some id
  | .poolAgent id => some id
  | _ => none

/-- The persisted jobs table: a lookup either yields the row, fails with
`resourceNotFound`, or fails with a transient store error. -/
def JobStore := JobSpec → Except Err Job

/-- Persist a job row at `spec` (the write performed by the store adapter
when a mutator returns no error). -/
def JobStore.persist (st : JobStore) (spec : JobSpec) (job : Job) : JobStore :=
  fun s => if s = spec then .ok job else st s

/-! ## Log proxy (`internal/logs/proxy.go`) -/

/-- A log chunk (`internal.Chunk`): run, phase, data bytes and offset. -/
structure Chunk where
  runID : String
  phase : Phase
  data : List Nat
  offset : Nat
deriving DecidableEq, Repr

/-- Whether the chunk starts a log: `Chunk.IsStart` ⇔ `Offset == 0`. -/
def Chunk.isStart (c : Chunk) : Bool := c.offset == 0

/-- Options of `get` (`GetChunkOptions`): which key to read and the slice bounds. -/
structure GetChunkOptions where
  runID : String
  phase : Phase
  offset : Nat
  limit : Nat
deriving DecidableEq, Repr

/-- Modelled from the spec: `Chunk.Cut(opts)` (the method lives in
`internal/chunk.go`, not under src/) slices the chunk's data to
`[opts.Offset, opts.Offset+opts.Limit)` clipped to bounds. -/
def Chunk.cut (c : Chunk) (opts : GetChunkOptions) : Chunk :=
  { c with data := (c.data.drop opts.offset).take opts.limit, offset := opts.offset }

/-- The function `cacheKey` generates the cache key `<runID>.<phase>.log`. -/
def cacheKey (runID : String) (phase : Phase) : String :=
  runID ++ "." ++ phase.toStr ++ ".log"

/-- The proxy's in-memory cache: key to accumulated bytes. -/
def Cache := String → Option (List Nat)

/-- Write a cache entry (`cache.Set`). -/
def Cache.set (cache : Cache) (key : String) (val : List Nat) : Cache :=
  fun k => if k = key then some val else cache k

/-- One iteration of the proxy's `Start` loop on an arriving chunk.
`db` plays `p.db.getLogs`: the full log persisted for a run phase.
The first chunk (`IsStart`) is written straight to the cache; a later
chunk is appended to a cached value, or on a cache miss the full log is
fetched from the store and cached. -/
def proxyStartStep (db : String → Phase → List Nat) (cache : Cache) (c : Chunk) : Cache :=
  let key := cacheKey c.runID c.phase
  let logs :=
    if c.isStart then
      c.data
    else
      match cache key with
      | some existing => existing ++ c.data
      | none => db c.runID c.phase
  cache.set key logs

/-- Result of `proxy.get`: the chunk (or error) and the cache afterwards. -/
structure GetOutcome where
  result : Except Err Chunk
  cache : Cache

/-- The proxy's `get(opts)`: read the cache; on miss fall back to the store
(`dbRes` plays `p.db.getLogs`, which can fail), populate the cache
(`setOk` is whether `cache.Set` succeeds; its failure is only logged),
and cut the resulting bytes down to the requested window. -/
def proxyGet (dbRes : Except Err (List Nat)) (setOk : Bool) (cache : Cache)
    (opts : GetChunkOptions) : GetOutcome :=
  let key := cacheKey opts.runID opts.phase
  match cache key with
  | some data =>
      ⟨.ok (Chunk.cut ⟨opts.runID, opts.phase, data, 0⟩ opts), cache⟩
  | none =>
      match dbRes with
      | .error e => ⟨.error e, cache⟩
      | .ok data =>
          ⟨.ok (Chunk.cut ⟨opts.runID, opts.phase, data, 0⟩ opts),
           if setOk then cache.set key data else cache⟩

/-- Options of `put` (`PutChunkOptions`): a chunk to append to a run phase's log. -/
structure PutChunkOptions where
  runID : String
  phase : Phase
  data : List Nat
deriving DecidableEq, Repr

/-- The proxy's view of the world: its cache and the backing log store. -/
structure ProxyState where
  cache : Cache
  store : String → Phase → List Nat

/-- Result of `proxy.put`: the chunk ID (or error) and the state afterwards. -/
structure PutOutcome where
  result : Except Err String
  state : ProxyState

/-- The proxy's `put(opts)`: writes the chunk to the db only (`dbPut` plays
`p.db.put`); the cache is untouched — the store's notification later
updates it through the `Start` loop. -/
def proxyPut
    (dbPut : (String → Phase → List Nat) → PutChunkOptions →
      Except Err (String × (String → Phase → List Nat)))
    (st : ProxyState) (opts : PutChunkOptions) : PutOutcome :=
  match dbPut st.store opts with
  | .error e => ⟨.error e, ⟨st.cache, st.store⟩⟩
  | .ok (id, store) => ⟨.ok id, ⟨st.cache, store⟩⟩

/-! ## Agent service (`internal/agent/service.go`) -/

/-- Modelled from the spec: `Job.startJob` (the job state-machine method in
`internal/agent/job.go`, not under src/) — the transition
`allocated → running`; any other source state is an illegal transition
(`ErrInvalidStateTransition`, spec §4.3). -/
def jobStart (job : Job) : Except Err Job :=
  match job.status with
  | .allocated => .ok { job with status := .running }
  | _ => .error .invalidStateTransition

/-- Modelled from the spec: `Job.finishJob` (in `internal/agent/job.go`, not
under src/) — the transitions `running → finished | errored | canceled`;
anything else is an illegal transition (spec §4.3). -/
def jobFinish (toStatus : JobStatus) (job : Job) : Except Err Job :=
  match job.status, toStatus with
  | .running, .finished => .ok { job with status := .finished }
  | .running, .errored => .ok { job with status := .errored }
  | .running, .canceled => .ok { job with status := .canceled }
  | _, _ => .error .invalidStateTransition

/-- Modelled from the spec: `Job.cancel(run)` (in `internal/agent/job.go`,
not under src/) — an unallocated or allocated job of a force-canceled run
goes straight to `canceled`; a running job gets `Signaled` set (true for
force-cancel) and the signal is returned; terminal jobs are a no-op
(spec §4.3 cancel rules). -/
def jobCancel (forceCanceled : Bool) (job : Job) : Except Err (Job × Option Bool) :=
  match job.status with
  | .unallocated | .allocated =>
      if forceCanceled then .ok ({ job with status := .canceled }, none)
      else .ok (job, none)
  | .running => .ok ({ job with signaled := some forceCanceled }, some forceCanceled)
  | _ => .ok (job, none)

/-- Result of `startJob`: the minted token (or error), the persisted jobs
table afterwards, and how many times `phases.StartPhase` was invoked. -/
structure StartJobOutcome where
  result : Except Err (List Nat)
  store : JobStore
  startPhaseCalls : Nat

/-- The service's `startJob(spec)`: the caller must be a registered agent, the job
must be assigned to that agent; the job transitions to running, the run
phase is started, and a per-job token is minted. `phasesRes` plays
`phases.StartPhase` and `tokenRes` plays `tokenFactory.createJobToken`.
Per the store adapter's contract (spec §4.2) the mutated row is persisted
iff the mutator returns no error. -/
def startJob (phasesRes : Except Err Unit) (tokenRes : Except Err (List Nat))
    (subject : Subject) (spec : JobSpec) (st : JobStore) : StartJobOutcome :=
  match registeredAgentID subject with
  | none => ⟨.error .accessNotPermitted, st, 0⟩
  | some aid =>
    match st spec with
    | .error e => ⟨.error e, st, 0⟩
    | .ok job =>
      if job.agentID.isNone || job.agentID != some aid then
        ⟨.error .accessNotPermitted, st, 0⟩
      else
        match jobStart job with
        | .error e => ⟨.error e, st, 0⟩
        | .ok job' =>
          match phasesRes with
          | .error e => ⟨.error e, st, 1⟩
          | .ok () =>
            match tokenRes with
            | .error e => ⟨.error e, st, 1⟩
            | .ok token => ⟨.ok token, st.persist spec job', 1⟩

/-- Options of `finishJob` (`finishJobOptions`): the final status and optional error message. -/
structure FinishJobOptions where
  status : JobStatus
  error : String
deriving DecidableEq, Repr

/-- Result of `finishJob`: the finished job (or error), the persisted jobs
table afterwards, the `Errored` flag of each `phases.FinishPhase` call made,
and how many times `phases.Cancel` was invoked. -/
structure FinishJobOutcome where
  result : Except Err Job
  store : JobStore
  finishPhaseArgs : List Bool
  cancelCalls : Nat

/-- The service's `finishJob(spec, opts)`: the caller must be the job itself;
depending on `opts.Status` the corresponding run phase is finished
(`Errored: opts.Status == JobErrored`) or the run canceled, then the job
row is finalized. `finishRes` plays `phases.FinishPhase` and `cancelRes`
plays `phases.Cancel`; the row is persisted iff the mutator returns no
error (spec §4.2). -/
def finishJob (finishRes : Except Err Unit) (cancelRes : Except Err Unit)
    (subject : Subject) (spec : JobSpec) (opts : FinishJobOptions)
    (st : JobStore) : FinishJobOutcome :=
  match subject with
  | .jobSubject _ =>
    match st spec with
    | .error e => ⟨.error e, st, [], 0⟩
    | .ok job =>
      let phaseCall :=
        match opts.status with
        | .finished => (finishRes, [false], 0)
        | .errored => (finishRes, [true], 0)
        | .canceled => (cancelRes, ([] : List Bool), 1)
        | _ => (.ok (), [], 0)
      match phaseCall.1 with
      | .error e => ⟨.error e, st, phaseCall.2.1, phaseCall.2.2⟩
      | .ok () =>
        match jobFinish opts.status job with
        | .error e => ⟨.error e, st, phaseCall.2.1, phaseCall.2.2⟩
        | .ok job' => ⟨.ok job', st.persist spec job', phaseCall.2.1, phaseCall.2.2⟩
  | _ => ⟨.error .accessNotPermitted, st, [], 0⟩

/-- The service's `cancelJob(run)`: called when a user cancels a run. The job row
for the run's current phase is updated with `Job.cancel`; a missing row
(`ErrResourceNotFound`) is ignored and reported as success, any other
store error is propagated. Returns the result and the jobs table
afterwards. -/
def cancelJob (forceCanceled : Bool) (spec : JobSpec) (st : JobStore) :
    Except Err Unit × JobStore :=
  match st spec with
  | .error e =>
      if e = .resourceNotFound then (.ok (), st)
      else (.error e, st)
  | .ok job =>
    match jobCancel forceCanceled job with
    | .error e => (.error e, st)
    | .ok (job', _) => (.ok (), st.persist spec job')

/-- Modelled from the spec: the store adapter's
`getAllocatedAndSignaledJobs(ctx, agentID)` (in `internal/agent/db.go`,
not under src/) returns the jobs assigned to this agent that are either in
`allocated` state, or `running` with non-null `Signaled` (spec §4.2, §4.7). -/
def getAllocatedAndSignaledJobs (jobs : List Job) (agentID : String) : List Job :=
  jobs.filter fun j =>
    (j.agentID == some agentID && j.status == .allocated)
    || (j.agentID == some agentID && j.status == .running && j.signaled.isSome)

/-- The condition of `getAgentJobs`'s wait loop: the event's job is assigned
to the agent and is allocated, or running with a non-nil signal. -/
def jobMatchesAgent (agentID : String) (job : Job) : Bool :=
  match job.agentID with
  | none => false
  | some id =>
    id == agentID &&
      match job.status with
      | .allocated => true
      | .running => job.signaled.isSome
      | _ => false

/-- The service's `getAgentJobs(agentID)`: the caller must be a registered agent
with a matching ID. Returns the allocated-and-signaled jobs from the store
query if any; otherwise waits on the jobs event stream (`events` is the
sequence of job payloads observed before the context is canceled) for the
first job matching the criteria, returning the empty list if the stream
ends without a match. -/
def getAgentJobs (subject : Subject) (agentID : String) (storeJobs : List Job)
    (events : List Job) : Except Err (List Job) :=
  match subject with
  | .serverAgent id | .poolAgent id =>
    if id != agentID then .error .accessNotPermitted
    else
      let jobs := getAllocatedAndSignaledJobs storeJobs agentID
      if jobs.length > 0 then .ok jobs
      else
        match events.find? (jobMatchesAgent agentID) with
        | some job => .ok [job]
        | none => .ok []
  | _ => .error .accessNotPermitted

/-- The service's `checkWorkspacePoolAccess(ws)`: a workspace using no pool passes;
otherwise the pool is fetched (`getPool` plays `GetAgentPool`, which can
fail) and access is granted iff the pool is organization-scoped or the
workspace is explicitly allowed. -/
def checkWorkspacePoolAccess (getPool : String → Except Err Pool)
    (ws : Workspace) : Except Err Unit :=
  match ws.agentPoolID with
  | none => .ok ()
  | some pid =>
    match getPool pid with
    | .error e => .error e
    | .ok pool =>
      if pool.organizationScoped then .ok ()
      else if pool.allowedWorkspaces.contains ws.id then .ok ()
      else .error .workspaceNotAllowedToUsePool

/-- Result of `deleteAgentPool`: the deleted pool (or error) and whether the
store's delete was invoked. -/
structure DeletePoolOutcome where
  result : Except Err Pool
  deleteCalled : Bool

/-- The service's `deleteAgentPool(poolID)`: fetch the pool (`getPoolRes`),
authorize (`canAccess`), refuse deletion while any workspace references the
pool, otherwise invoke the store delete (`dbDeleteRes`). -/
def deleteAgentPool (getPoolRes : Except Err Pool) (canAccess : Except Err Unit)
    (dbDeleteRes : Except Err Unit) : DeletePoolOutcome :=
  match getPoolRes with
  | .error e => ⟨.error e, false⟩
  | .ok pool =>
    match canAccess with
    | .error e => ⟨.error e, false⟩
    | .ok () =>
      if pool.assignedWorkspaces.length > 0 then
        ⟨.error .cannotDeletePoolReferencedByWorkspaces, false⟩
      else
        match dbDeleteRes with
        | .error e => ⟨.error e, true⟩
        | .ok () => ⟨.ok pool, true⟩

/-- The service's `updateAgentStatus(agentID, status)`: only the manager, or a
registered (server or pool) agent whose ID equals `agentID`, may proceed;
all other subjects are rejected. `updateRes` plays the `db.updateAgent`
call, a function of the `isAgent` flag passed to `Agent.setStatus`. -/
def updateAgentStatus (updateRes : Bool → Except Err Unit) (subject : Subject)
    (agentID : String) : Except Err Unit :=
  match subject with
  | .manager => updateRes false
  | .serverAgent id | .poolAgent id =>
    if id != agentID then .error .accessNotPermitted
    else updateRes true
  | _ => .error .accessNotPermitted

end Tofutf

namespace Tofutf

/-- Claim C3 — For every chunk processed by the `Start` loop: a chunk with
Offset = 0 replaces the cache entry for `<runID>.<phase>.log` with exactly
its data; a chunk with Offset ≠ 0 appends its data to a cached entry, and
on a cache miss the entry becomes the full log fetched from the store. -/
theorem proxy_start_step_cache_entry
    (db : String → Phase → List Nat) (cache : Cache) (c : Chunk) :
    (c.offset = 0 →
      proxyStartStep db cache c (cacheKey c.runID c.phase) = some c.data)
    ∧ (c.offset ≠ 0 → ∀ existing,
        cache (cacheKey c.runID c.phase) = some existing →
        proxyStartStep db cache c (cacheKey c.runID c.phase)
          = some (existing ++ c.data))
    ∧ (c.offset ≠ 0 →
        cache (cacheKey c.runID c.phase) = none →
        proxyStartStep db cache c (cacheKey c.runID c.phase)
          = some (db c.runID c.phase)) := by
  refine ⟨fun h0 => ?_, fun hne existing hhit => ?_, fun hne hmiss => ?_⟩
  · simp [proxyStartStep, Cache.set, Chunk.isStart, h0]
  · have : c.isStart = false := by
      simp [Chunk.isStart]
      omega
    simp [proxyStartStep, Cache.set, this, hhit]
  · have : c.isStart = false := by
      simp [Chunk.isStart]
      omega
    simp [proxyStartStep, Cache.set, this, hmiss]

/-- Witness for C3: on concrete inputs, a start chunk overwrites a stale
entry, and a continuation chunk appends to it. -/
theorem proxy_start_step_cache_entry_witness :
    (proxyStartStep (fun _ _ => [9]) (fun _ => some [7]) ⟨"r1", .plan, [1, 2], 0⟩
        (cacheKey "r1" .plan) = some [1, 2])
    ∧ (proxyStartStep (fun _ _ => [9]) (fun _ => some [7]) ⟨"r1", .plan, [1, 2], 5⟩
        (cacheKey "r1" .plan) = some [7, 1, 2]) := by
  constructor
  · exact (proxy_start_step_cache_entry (fun _ _ => [9]) (fun _ => some [7])
      ⟨"r1", .plan, [1, 2], 0⟩).1 rfl
  · exact (proxy_start_step_cache_entry (fun _ _ => [9]) (fun _ => some [7])
      ⟨"r1", .plan, [1, 2], 5⟩).2.1 (by decide) [7] rfl

/-- Claim C8 — `proxy.get(opts)`: a cache hit serves the cached bytes; a miss
fetches from the store and populates the cache; in both cases the returned
chunk's data is the byte sequence cut to `[Offset, Offset+Limit)`, and a
failure of the cache write does not make `get` return an error. -/
theorem proxy_get_spec (dbRes : Except Err (List Nat)) (setOk : Bool)
    (cache : Cache) (opts : GetChunkOptions) :
    (∀ data, cache (cacheKey opts.runID opts.phase) = some data →
      proxyGet dbRes setOk cache opts
        = ⟨.ok (Chunk.cut ⟨opts.runID, opts.phase, data, 0⟩ opts), cache⟩)
    ∧ (∀ data, cache (cacheKey opts.runID opts.phase) = none →
        dbRes = .ok data →
        (proxyGet dbRes setOk cache opts).result
          = .ok (Chunk.cut ⟨opts.runID, opts.phase, data, 0⟩ opts)
        ∧ (setOk = true → (proxyGet dbRes setOk cache opts).cache
            = cache.set (cacheKey opts.runID opts.phase) data))
    ∧ (∀ c, (proxyGet dbRes true cache opts).result = .ok c →
        (proxyGet dbRes false cache opts).result = .ok c) := by
  refine ⟨fun data hhit => ?_, fun data hmiss hdb => ?_, fun c hok => ?_⟩
  · simp [proxyGet, hhit]
  · refine ⟨?_, fun hset => ?_⟩
    · simp [proxyGet, hmiss, hdb]
    · simp [proxyGet, hmiss, hdb, hset]
  · unfold proxyGet at hok ⊢
    cases hhit : cache (cacheKey opts.runID opts.phase) with
    | some data => simpa [hhit] using hok
    | none =>
        cases dbRes with
        | error e => simp [hhit] at hok
        | ok data => simpa [hhit] using hok

/-- Witness for C8: concrete hit and miss behaviour, with the slice applied. -/
theorem proxy_get_spec_witness :
    ((fun _ => some [1, 2, 3, 4]) (cacheKey "r" Phase.plan) = some [1, 2, 3, 4])
    ∧ (proxyGet (.ok [9]) true (fun _ => some [1, 2, 3, 4]) ⟨"r", .plan, 1, 2⟩
        = ⟨.ok ⟨"r", .plan, [2, 3], 1⟩, fun _ => some [1, 2, 3, 4]⟩) := by
  refine ⟨rfl, ?_⟩
  have h := (proxy_get_spec (.ok [9]) true (fun _ => some [1, 2, 3, 4])
    ⟨"r", .plan, 1, 2⟩).1 [1, 2, 3, 4] rfl
  simpa [Chunk.cut] using h

/-- Claim C9 — `proxy.put(opts)` only writes to the backing store: regardless of
the db outcome, the cache after the call is exactly the cache before it. -/
theorem proxy_put_cache_frame
    (dbPut : (String → Phase → List Nat) → PutChunkOptions →
      Except Err (String × (String → Phase → List Nat)))
    (st : ProxyState) (opts : PutChunkOptions) :
    (proxyPut dbPut st opts).state.cache = st.cache := by
  unfold proxyPut
  cases dbPut st.store opts with
  | error e => rfl
  | ok r => rfl

/-- Claim C1 — `startJob(spec)`: an unregistered caller, a job with no
assigned agent, or a job assigned to a different agent all yield
`ErrAccessNotPermitted` with no phase started and no state change; for the
assigned agent of an allocated job with the collaborators succeeding, the
job is persisted as running, `StartPhase` runs exactly once and the fresh
token is returned; and whenever the call errors, the persisted jobs table
is unchanged. -/
theorem startJob_spec (phasesRes : Except Err Unit) (tokenRes : Except Err (List Nat))
    (subject : Subject) (spec : JobSpec) (st : JobStore) :
    (registeredAgentID subject = none →
      startJob phasesRes tokenRes subject spec st
        = ⟨.error .accessNotPermitted, st, 0⟩)
    ∧ (∀ aid job, registeredAgentID subject = some aid → st spec = .ok job →
        job.agentID = none ∨ job.agentID ≠ some aid →
        startJob phasesRes tokenRes subject spec st
          = ⟨.error .accessNotPermitted, st, 0⟩)
    ∧ (∀ aid job token, registeredAgentID subject = some aid → st spec = .ok job →
        job.agentID = some aid → job.status = .allocated →
        phasesRes = .ok () → tokenRes = .ok token →
        startJob phasesRes tokenRes subject spec st
          = ⟨.ok token, st.persist spec { job with status := .running }, 1⟩)
    ∧ (∀ e, (startJob phasesRes tokenRes subject spec st).result = .error e →
        (startJob phasesRes tokenRes subject spec st).store = st) := by
  refine ⟨fun hreg => ?_, fun aid job hreg hst hbad => ?_,
    fun aid job token hreg hst hagent hstatus hph htok => ?_, fun e herr => ?_⟩
  · simp [startJob, hreg]
  · have hguard : (job.agentID.isNone || job.agentID != some aid) = true := by
      rcases hbad with hnone | hne
      · simp [hnone]
      · simp [hne]
    simp [startJob, hreg, hst, hguard]
  · have hguard : (job.agentID.isNone || job.agentID != some aid) = false := by
      simp [hagent]
    simp [startJob, hreg, hst, hguard, jobStart, hstatus, hph, htok]
  · unfold startJob at herr ⊢
    cases hreg : registeredAgentID subject with
    | none => rfl
    | some aid =>
      cases hst : st spec with
      | error e2 => simp
      | ok job =>
        by_cases hguard : (job.agentID.isNone || job.agentID != some aid) = true
        · simp [hguard]
        · rw [Bool.not_eq_true] at hguard
          cases hjs : jobStart job with
          | error e2 => simp [hguard, hjs]
          | ok job2 =>
            cases phasesRes with
            | error e2 => simp [hguard, hjs]
            | ok u =>
              cases u
              cases tokenRes with
              | error e2 => simp [hguard, hjs]
              | ok token =>
                rw [hreg, hst] at herr
                simp [hguard, hjs] at herr

/-- Witness for C1: the assigned agent of an allocated job starts it; the
outcome carries the token, the running job persisted, and one `StartPhase`
call. -/
theorem startJob_spec_witness :
    startJob (.ok ()) (.ok [1, 2]) (.serverAgent "a1") ⟨"r1", .plan⟩
        (fun _ => .ok ⟨⟨"r1", .plan⟩, .allocated, some "a1", none⟩)
      = ⟨.ok [1, 2],
         JobStore.persist (fun _ => .ok ⟨⟨"r1", .plan⟩, .allocated, some "a1", none⟩)
           ⟨"r1", .plan⟩ ⟨⟨"r1", .plan⟩, .running, some "a1", none⟩, 1⟩ :=
  (startJob_spec (.ok ()) (.ok [1, 2]) (.serverAgent "a1") ⟨"r1", .plan⟩
      (fun _ => .ok ⟨⟨"r1", .plan⟩, .allocated, some "a1", none⟩)).2.2.1
    "a1" ⟨⟨"r1", .plan⟩, .allocated, some "a1", none⟩ [1, 2] rfl rfl rfl rfl rfl rfl

/-- Claim C2 — `finishJob(spec, opts)`: a caller that is not a job is
rejected with `ErrAccessNotPermitted` (no phase call, no state change);
for the job itself on an existing row, status `finished` or `errored`
invokes `FinishPhase` exactly once with `Errored` true iff the status is
`errored`, and status `canceled` invokes `Cancel` exactly once — in every
case before the job row is finalized, i.e. whatever the outcomes of the
phase call and of the finalization. -/
theorem finishJob_spec (finishRes cancelRes : Except Err Unit) (subject : Subject)
    (spec : JobSpec) (opts : FinishJobOptions) (st : JobStore) :
    ((∀ s, subject ≠ .jobSubject s) →
      finishJob finishRes cancelRes subject spec opts st
        = ⟨.error .accessNotPermitted, st, [], 0⟩)
    ∧ (∀ s job, subject = .jobSubject s → st spec = .ok job →
        opts.status = .finished →
        (finishJob finishRes cancelRes subject spec opts st).finishPhaseArgs = [false]
        ∧ (finishJob finishRes cancelRes subject spec opts st).cancelCalls = 0)
    ∧ (∀ s job, subject = .jobSubject s → st spec = .ok job →
        opts.status = .errored →
        (finishJob finishRes cancelRes subject spec opts st).finishPhaseArgs = [true]
        ∧ (finishJob finishRes cancelRes subject spec opts st).cancelCalls = 0)
    ∧ (∀ s job, subject = .jobSubject s → st spec = .ok job →
        opts.status = .canceled →
        (finishJob finishRes cancelRes subject spec opts st).finishPhaseArgs = []
        ∧ (finishJob finishRes cancelRes subject spec opts st).cancelCalls = 1) := by
  refine ⟨fun hnot => ?_, fun s job hsub hst hstatus => ?_,
    fun s job hsub hst hstatus => ?_, fun s job hsub hst hstatus => ?_⟩
  · cases subject with
    | jobSubject s => exact absurd rfl (hnot s)
    | manager => rfl
    | serverAgent id => rfl
    | poolAgent id => rfl
    | unregisteredServerAgent => rfl
    | unregisteredPoolAgent p => rfl
    | user u => rfl
  · subst hsub
    unfold finishJob
    rw [hst, hstatus]
    cases finishRes with
    | error e => exact ⟨rfl, rfl⟩
    | ok u =>
        cases u
        cases hjf : jobFinish JobStatus.finished job <;> simp [hjf]
  · subst hsub
    unfold finishJob
    rw [hst, hstatus]
    cases finishRes with
    | error e => exact ⟨rfl, rfl⟩
    | ok u =>
        cases u
        cases hjf : jobFinish JobStatus.errored job <;> simp [hjf]
  · subst hsub
    unfold finishJob
    rw [hst, hstatus]
    cases cancelRes with
    | error e => exact ⟨rfl, rfl⟩
    | ok u =>
        cases u
        cases hjf : jobFinish JobStatus.canceled job <;> simp [hjf]

/-- Witness for C2: the job itself finishing a running job with status
`canceled` triggers exactly one `Cancel` call and no `FinishPhase` call. -/
theorem finishJob_spec_witness :
    (finishJob (.ok ()) (.ok ()) (.jobSubject ⟨"r2", .apply⟩) ⟨"r2", .apply⟩
        ⟨.canceled, ""⟩
        (fun _ => .ok ⟨⟨"r2", .apply⟩, .running, some "a2", some true⟩)).finishPhaseArgs
      = []
    ∧ (finishJob (.ok ()) (.ok ()) (.jobSubject ⟨"r2", .apply⟩) ⟨"r2", .apply⟩
        ⟨.canceled, ""⟩
        (fun _ => .ok ⟨⟨"r2", .apply⟩, .running, some "a2", some true⟩)).cancelCalls
      = 1 :=
  (finishJob_spec (.ok ()) (.ok ()) (.jobSubject ⟨"r2", .apply⟩) ⟨"r2", .apply⟩
      ⟨.canceled, ""⟩
      (fun _ => .ok ⟨⟨"r2", .apply⟩, .running, some "a2", some true⟩)).2.2.2
    ⟨"r2", .apply⟩ ⟨⟨"r2", .apply⟩, .running, some "a2", some true⟩ rfl rfl rfl

/-- Any job accepted by the wait-loop condition of `getAgentJobs` is assigned
to the agent and is allocated, or running with a pending signal. -/
theorem jobMatchesAgent_props (agentID : String) (j : Job)
    (h : jobMatchesAgent agentID j = true) :
    j.agentID = some agentID
    ∧ (j.status = .allocated ∨ (j.status = .running ∧ j.signaled ≠ none)) := by
  unfold jobMatchesAgent at h
  cases hid : j.agentID with
  | none => rw [hid] at h; exact absurd h (by simp)
  | some id =>
    rw [hid] at h
    rw [Bool.and_eq_true, beq_iff_eq] at h
    obtain ⟨hideq, hrest⟩ := h
    subst hideq
    refine ⟨rfl, ?_⟩
    cases hs : j.status <;> rw [hs] at hrest <;> simp_all [Option.isSome_iff_ne_none]

/-- Any job returned by the store query `getAllocatedAndSignaledJobs` is
assigned to the agent and is allocated, or running with a pending signal. -/
theorem getAllocatedAndSignaledJobs_props (jobs : List Job) (agentID : String)
    (j : Job) (hj : j ∈ getAllocatedAndSignaledJobs jobs agentID) :
    j.agentID = some agentID
    ∧ (j.status = .allocated ∨ (j.status = .running ∧ j.signaled ≠ none)) := by
  unfold getAllocatedAndSignaledJobs at hj
  have h := (List.mem_filter.1 hj).2
  rw [Bool.or_eq_true, Bool.and_eq_true, Bool.and_eq_true, Bool.and_eq_true] at h
  rcases h with ⟨ha, hs⟩ | ⟨⟨ha, hs⟩, hsig⟩
  · rw [beq_iff_eq] at ha hs
    exact ⟨ha, Or.inl hs⟩
  · rw [beq_iff_eq] at ha hs
    rw [Option.isSome_iff_ne_none] at hsig
    exact ⟨ha, Or.inr ⟨hs, hsig⟩⟩

/-- Claim C4 — `getAgentJobs(agentID)`: a caller that is not a registered
agent with ID `agentID` is rejected with `ErrAccessNotPermitted`; and every
job in a successful result — whether from the initial store query or from
the wait on the jobs event stream — is assigned to `agentID` and is
allocated, or running with a non-nil `Signaled`. -/
theorem getAgentJobs_spec (subject : Subject) (agentID : String)
    (storeJobs : List Job) (events : List Job) :
    (registeredAgentID subject ≠ some agentID →
      getAgentJobs subject agentID storeJobs events = .error .accessNotPermitted)
    ∧ (∀ jobs, getAgentJobs subject agentID storeJobs events = .ok jobs →
        ∀ j ∈ jobs, j.agentID = some agentID
          ∧ (j.status = .allocated ∨ (j.status = .running ∧ j.signaled ≠ none))) := by
  constructor
  · intro hreg
    cases subject with
    | serverAgent id =>
        have hne : (id != agentID) = true := by
          simp only [registeredAgentID, ne_eq, Option.some.injEq] at hreg
          simpa using hreg
        simp [getAgentJobs, hne]
    | poolAgent id =>
        have hne : (id != agentID) = true := by
          simp only [registeredAgentID, ne_eq, Option.some.injEq] at hreg
          simpa using hreg
        simp [getAgentJobs, hne]
    | manager => rfl
    | unregisteredServerAgent => rfl
    | unregisteredPoolAgent p => rfl
    | jobSubject sp => rfl
    | user u => rfl
  · intro jobs hok j hj
    have main : ∀ id : String,
        (if id != agentID then (.error .accessNotPermitted : Except Err (List Job))
         else
           let js := getAllocatedAndSignaledJobs storeJobs agentID
           if js.length > 0 then .ok js
           else
             match events.find? (jobMatchesAgent agentID) with
             | some job => .ok [job]
             | none => .ok []) = .ok jobs →
        j.agentID = some agentID
          ∧ (j.status = .allocated ∨ (j.status = .running ∧ j.signaled ≠ none)) := by
      intro id hok
      by_cases hid : (id != agentID) = true
      · rw [if_pos hid] at hok
        exact absurd hok (by simp)
      · rw [if_neg hid] at hok
        simp only at hok
        by_cases hlen : (getAllocatedAndSignaledJobs storeJobs agentID).length > 0
        · rw [if_pos hlen] at hok
          injection hok with hjobs
          subst hjobs
          exact getAllocatedAndSignaledJobs_props storeJobs agentID j hj
        · rw [if_neg hlen] at hok
          cases hfind : events.find? (jobMatchesAgent agentID) with
          | some job =>
              rw [hfind] at hok
              injection hok with hjobs
              subst hjobs
              have hj1 : j = job := by simpa using hj
              subst hj1
              exact jobMatchesAgent_props agentID j (List.find?_some hfind)
          | none =>
              rw [hfind] at hok
              injection hok with hjobs
              subst hjobs
              exact absurd hj (by simp)
    cases subject with
    | serverAgent id => exact main id hok
    | poolAgent id => exact main id hok
    | manager => exact absurd hok (by simp [getAgentJobs])
    | unregisteredServerAgent => exact absurd hok (by simp [getAgentJobs])
    | unregisteredPoolAgent p => exact absurd hok (by simp [getAgentJobs])
    | jobSubject sp => exact absurd hok (by simp [getAgentJobs])
    | user u => exact absurd hok (by simp [getAgentJobs])

/-- Witness for C4: a foreign agent is rejected, and the matching agent
receives only its own allocated job, which satisfies the result property. -/
theorem getAgentJobs_spec_witness :
    (getAgentJobs (.serverAgent "a9") "a3"
        [⟨⟨"r3", .plan⟩, .allocated, some "a3", none⟩] []
      = .error .accessNotPermitted)
    ∧ ((⟨⟨"r3", .plan⟩, .allocated, some "a3", none⟩ : Job).agentID = some "a3"
        ∧ ((⟨⟨"r3", .plan⟩, .allocated, some "a3", none⟩ : Job).status = .allocated
          ∨ ((⟨⟨"r3", .plan⟩, .allocated, some "a3", none⟩ : Job).status = .running
            ∧ (⟨⟨"r3", .plan⟩, .allocated, some "a3", none⟩ : Job).signaled ≠ none))) := by
  constructor
  · exact (getAgentJobs_spec (.serverAgent "a9") "a3"
      [⟨⟨"r3", .plan⟩, .allocated, some "a3", none⟩] []).1 (by decide)
  · exact (getAgentJobs_spec (.serverAgent "a3") "a3"
      [⟨⟨"r3", .plan⟩, .allocated, some "a3", none⟩] []).2
      [⟨⟨"r3", .plan⟩, .allocated, some "a3", none⟩] rfl
      ⟨⟨"r3", .plan⟩, .allocated, some "a3", none⟩ (by decide)

/-- Claim C5 — `checkWorkspacePoolAccess(ws)` succeeds when the workspace
uses no pool, when the referenced pool is organization-scoped, or when the
workspace is listed in the pool's allowed workspaces; otherwise it fails
with `ErrWorkspaceNotAllowedToUsePool`. -/
theorem checkWorkspacePoolAccess_spec (getPool : String → Except Err Pool)
    (ws : Workspace) :
    (ws.agentPoolID = none → checkWorkspacePoolAccess getPool ws = .ok ())
    ∧ (∀ pid pool, ws.agentPoolID = some pid → getPool pid = .ok pool →
        (pool.organizationScoped = true →
          checkWorkspacePoolAccess getPool ws = .ok ())
        ∧ (pool.allowedWorkspaces.contains ws.id = true →
          checkWorkspacePoolAccess getPool ws = .ok ())
        ∧ (pool.organizationScoped = false →
          pool.allowedWorkspaces.contains ws.id = false →
          checkWorkspacePoolAccess getPool ws
            = .error .workspaceNotAllowedToUsePool)) := by
  refine ⟨fun hnone => ?_, fun pid pool hpid hpool => ⟨fun hscoped => ?_,
    fun hallowed => ?_, fun hscoped hallowed => ?_⟩⟩
  · simp [checkWorkspacePoolAccess, hnone]
  · simp only [checkWorkspacePoolAccess, hpid, hpool]
    rw [if_pos (by simp [hscoped])]
  · simp only [checkWorkspacePoolAccess, hpid, hpool]
    by_cases hscoped : pool.organizationScoped = true
    · rw [if_pos (by simp [hscoped])]
    · rw [if_neg (by simp [hscoped]),
        if_pos (by simp; exact List.elem_iff.mp hallowed)]
  · simp only [checkWorkspacePoolAccess, hpid, hpool]
    rw [if_neg (by simp [hscoped]), if_neg (by simp; simpa using hallowed)]

/-- Witness for C5: a workspace not allowed on a non-organization-scoped pool
is rejected; after being added to the allowed list it passes. -/
theorem checkWorkspacePoolAccess_spec_witness :
    (checkWorkspacePoolAccess
        (fun _ => .ok ⟨"p1", "o1", false, [], ["w1"]⟩) ⟨"w1", some "p1"⟩
      = .error .workspaceNotAllowedToUsePool)
    ∧ (checkWorkspacePoolAccess
        (fun _ => .ok ⟨"p1", "o1", false, ["w1"], ["w1"]⟩) ⟨"w1", some "p1"⟩
      = .ok ()) := by
  constructor
  · exact ((checkWorkspacePoolAccess_spec
      (fun _ => .ok ⟨"p1", "o1", false, [], ["w1"]⟩) ⟨"w1", some "p1"⟩).2
      "p1" ⟨"p1", "o1", false, [], ["w1"]⟩ rfl rfl).2.2 rfl rfl
  · exact ((checkWorkspacePoolAccess_spec
      (fun _ => .ok ⟨"p1", "o1", false, ["w1"], ["w1"]⟩) ⟨"w1", some "p1"⟩).2
      "p1" ⟨"p1", "o1", false, ["w1"], ["w1"]⟩ rfl rfl).2.1 rfl

/-- Claim C6 — `deleteAgentPool(poolID)`: a pool with a non-empty
`AssignedWorkspaces` is refused with
`ErrCannotDeletePoolReferencedByWorkspaces` and the store delete is not
invoked; the delete runs only for a pool with no assigned workspaces. -/
theorem deleteAgentPool_spec (getPoolRes : Except Err Pool)
    (canAccess : Except Err Unit) (dbDeleteRes : Except Err Unit) :
    (∀ pool, getPoolRes = .ok pool → canAccess = .ok () →
      pool.assignedWorkspaces ≠ [] →
      deleteAgentPool getPoolRes canAccess dbDeleteRes
        = ⟨.error .cannotDeletePoolReferencedByWorkspaces, false⟩)
    ∧ ((deleteAgentPool getPoolRes canAccess dbDeleteRes).deleteCalled = true →
        ∃ pool, getPoolRes = .ok pool ∧ pool.assignedWorkspaces = []) := by
  constructor
  · intro pool hpool hacc hne
    have hlen : pool.assignedWorkspaces.length > 0 :=
      List.length_pos.mpr hne
    simp [deleteAgentPool, hpool, hacc, hlen]
  · intro hcalled
    cases hpool : getPoolRes with
    | error e =>
        rw [hpool] at hcalled
        simp [deleteAgentPool] at hcalled
    | ok pool =>
        rw [hpool] at hcalled
        refine ⟨pool, rfl, ?_⟩
        cases hacc : canAccess with
        | error e =>
            rw [hacc] at hcalled
            simp [deleteAgentPool] at hcalled
        | ok u =>
            cases u
            rw [hacc] at hcalled
            simp only [deleteAgentPool] at hcalled
            by_cases hlen : pool.assignedWorkspaces = []
            · exact hlen
            · exfalso
              rw [if_pos (List.length_pos.mpr hlen)] at hcalled
              simp at hcalled

/-- Witness for C6: a pool referenced by one workspace is refused with the
delete not invoked. -/
theorem deleteAgentPool_spec_witness :
    deleteAgentPool (.ok ⟨"p2", "o2", true, [], ["w2"]⟩) (.ok ()) (.ok ())
      = ⟨.error .cannotDeletePoolReferencedByWorkspaces, false⟩ :=
  (deleteAgentPool_spec (.ok ⟨"p2", "o2", true, [], ["w2"]⟩) (.ok ()) (.ok ())).1
    ⟨"p2", "o2", true, [], ["w2"]⟩ rfl rfl (by decide)

/-- Claim C7 — `updateAgentStatus(agentID, status)`: every caller that is
neither the manager nor a registered agent whose ID equals `agentID` is
rejected with `ErrAccessNotPermitted`, whatever the requested status
transition would do. -/
theorem updateAgentStatus_auth (updateRes : Bool → Except Err Unit)
    (subject : Subject) (agentID : String) :
    subject ≠ .manager → registeredAgentID subject ≠ some agentID →
    updateAgentStatus updateRes subject agentID = .error .accessNotPermitted := by
  intro hmgr hreg
  cases subject with
  | manager => exact absurd rfl hmgr
  | serverAgent id =>
      have hne : (id != agentID) = true := by
        simp only [registeredAgentID, ne_eq, Option.some.injEq] at hreg
        simpa using hreg
      simp [updateAgentStatus, hne]
  | poolAgent id =>
      have hne : (id != agentID) = true := by
        simp only [registeredAgentID, ne_eq, Option.some.injEq] at hreg
        simpa using hreg
      simp [updateAgentStatus, hne]
  | unregisteredServerAgent => rfl
  | unregisteredPoolAgent p => rfl
  | jobSubject sp => rfl
  | user u => rfl

/-- Witness for C7: a user subject cannot update an agent's status even when
the underlying update would succeed. -/
theorem updateAgentStatus_auth_witness :
    updateAgentStatus (fun _ => .ok ()) (.user "alice") "a4"
      = .error .accessNotPermitted :=
  updateAgentStatus_auth (fun _ => .ok ()) (.user "alice") "a4"
    (by decide) (by decide)

/-- Claim C10 — `cancelJob(run)`: when the job row is missing
(`ErrResourceNotFound` from the store update) the call succeeds and changes
no state; any other store error is propagated unchanged. -/
theorem cancelJob_spec (forceCanceled : Bool) (spec : JobSpec) (st : JobStore) :
    (st spec = .error .resourceNotFound →
      cancelJob forceCanceled spec st = (.ok (), st))
    ∧ (∀ e, st spec = .error e → e ≠ .resourceNotFound →
        cancelJob forceCanceled spec st = (.error e, st)) := by
  constructor
  · intro h
    simp [cancelJob, h]
  · intro e h hne
    simp [cancelJob, h, hne]

/-- Witness for C10: a missing row is ignored while a transient store error
is propagated. -/
theorem cancelJob_spec_witness :
    (cancelJob true ⟨"r5", .plan⟩ (fun _ => .error .resourceNotFound)
      = (.ok (), fun _ => .error .resourceNotFound))
    ∧ (cancelJob true ⟨"r6", .plan⟩ (fun _ => .error (.other "db down"))
      = (.error (.other "db down"), fun _ => .error (.other "db down"))) := by
  constructor
  · exact (cancelJob_spec true ⟨"r5", .plan⟩
      (fun _ => .error .resourceNotFound)).1 rfl
  · exact (cancelJob_spec true ⟨"r6", .plan⟩
      (fun _ => .error (.other "db down"))).2 (.other "db down") rfl (by decide)

end Tofutf
